import Mathlib

/-!
Verification of the expression-evaluation core of `src/calculator.py`
(pycalc-gui).

The Python source delegates lexing and parsing to the host parser
(`ast.parse(expr, mode="eval")`); the repository itself contains no
tokenizer or parser, only the evaluator `_eval_ast`, the wrapper
`safe_eval` (unicode normalization and conversion of host parse errors
to `ValueError("Syntax error")`), and the GUI method
`Calculator.calculate` (trimming, the empty fast path, display
formatting, and error-to-string collapsing).  Accordingly:

* the tokenizer and the precedence-climbing parser below are modelled
  from the spec (sections 4.1 and 4.2), which defines those missing
  components;
* the evaluator, the error wrapping and the display formatting are
  translated from the source, including the semantics of the host
  operators the source dispatches to (`operator.truediv`,
  `operator.floordiv`, `operator.mod`, `operator.pow`, ...).

Numbers are modelled exactly: Python's arbitrary-precision `int` as
`ℤ`, and `float` by the exact rational value it denotes (`ℚ`).  IEEE-754
rounding, overflow (both the silent overflow of float arithmetic to
infinity and the host's `OverflowError` on out-of-range float powers
and int-to-float conversions) and complex-valued powers of negative
bases are outside this model; no theorem below depends on them.
-/

set_option maxRecDepth 4000

namespace PyCalc

/-- ASCII whitespace, the characters the spec's tokenizer skips between
tokens (section 4.1). -/
def isWS (c : Char) : Bool :=
  c == ' ' || c == '\t' || c == '\n' || c == '\r' ||
  c == '\x0b' || c == '\x0c'

/-- The characters Python's `str.isspace()` accepts — exactly the set
`str.strip()` (line 168 of the source) removes from the margins: the
ASCII whitespace, the file/group/record/unit separators `U+001C`–`U+001F`,
`U+0085`, `U+00A0`, and the Unicode space and line/paragraph
separators. -/
def pyIsSpace (c : Char) : Bool :=
  c == ' ' || c == '\t' || c == '\n' || c == '\r' ||
  c == '\x0b' || c == '\x0c' ||
  c == '\x1c' || c == '\x1d' || c == '\x1e' || c == '\x1f' ||
  c == '\x85' || c == '\xa0' || c == '\u1680' ||
  c == '\u2000' || c == '\u2001' || c == '\u2002' || c == '\u2003' ||
  c == '\u2004' || c == '\u2005' || c == '\u2006' || c == '\u2007' ||
  c == '\u2008' || c == '\u2009' || c == '\u200a' ||
  c == '\u2028' || c == '\u2029' || c == '\u202f' || c == '\u205f' ||
  c == '\u3000'

/-- Character-level unicode normalization:
`expr.replace("×", "*").replace("÷", "/")` from `safe_eval`
(both replacements are single-character substitutions). -/
def normChar (c : Char) : Char :=
  if c = '×' then '*' else if c = '÷' then '/' else c

/-- String-level normalization performed by `safe_eval` before parsing. -/
def normalize (s : String) : String :=
  ⟨s.data.map normChar⟩

/-- List-level trim: drop `str.isspace()` characters from both ends. -/
def stripList (l : List Char) : List Char :=
  (((l.dropWhile pyIsSpace).reverse).dropWhile pyIsSpace).reverse

/-- Model of `expr.strip()` in `Calculator.calculate`: removes every
`str.isspace()` character from both margins. -/
def pyStrip (s : String) : String :=
  ⟨stripList s.data⟩

/-- A Python numeric value as the evaluator sees it: an `int`
(arbitrary precision) or a `float` (modelled by its exact rational
value). -/
inductive Value : Type
  | vInt (n : ℤ)
  | vFloat (q : ℚ)
deriving DecidableEq

/-- The rational magnitude of a value (`int` and `float` compare and
compute by numeric value in Python: `0.0 == 0`, etc.). -/
def Value.toRat : Value → ℚ
  | .vInt n => (n : ℚ)
  | .vFloat q => q

/-- Whether the value is integer-tagged (a Python `int` rather than a
`float`). -/
def Value.isIntTag : Value → Bool
  | .vInt _ => true
  | .vFloat _ => false

/-- Modelled from the spec: `LexError{position, character}` of section
4.1 (the source has no tokenizer of its own; lexing is done by the
host parser). -/
structure LexError : Type where
  pos : Nat
  ch : Char
deriving DecidableEq

/-- Modelled from the spec: the token alphabet of section 3; number
tokens carry the parsed value with the integer/decimal distinction. -/
inductive Tok : Type
  | num (v : Value)
  | plus | minus | star | slash | dslash | percent | dstar
  | lparen | rparen
deriving DecidableEq

/-- Longest digit run at the head of a character list, and the rest. -/
def takeDigits : List Char → List Char × List Char
  | [] => ([], [])
  | c :: cs =>
    if c.isDigit then
      let p := takeDigits cs
      (c :: p.1, p.2)
    else ([], c :: cs)

/-- Numeric value of a digit run (base 10). -/
def digitsToNat (l : List Char) : Nat :=
  l.foldl (fun acc c => 10 * acc + (c.toNat - 48)) 0

/-- Exact rational value of the decimal literal `ds . fs`. -/
def mkDec (ds fs : List Char) : ℚ :=
  (digitsToNat ds : ℚ) + (digitsToNat fs : ℚ) / (10 : ℚ) ^ fs.length

/-- Modelled from the spec: lexing of one numeric literal starting with
a digit — one-or-more digits optionally followed by `.` and one-or-more
digits (section 4.1).  Returns the token and the unconsumed rest. -/
def lexNum (cs : List Char) : Tok × List Char :=
  match takeDigits cs with
  | (ds, '.' :: r2) =>
    match takeDigits r2 with
    | ([], _) => (.num (.vInt (digitsToNat ds)), '.' :: r2)
    | (fs, r3) => (.num (.vFloat (mkDec ds fs)), r3)
  | (ds, rest1) => (.num (.vInt (digitsToNat ds)), rest1)

/-- Attach a token in front of a tokenizer result. -/
def withTok (t : Tok) : Except LexError (List Tok) → Except LexError (List Tok)
  | .error e => .error e
  | .ok ts => .ok (t :: ts)

/-- Modelled from the spec: the tokenizer of section 4.1 (absent from
the source, which lexes via the host parser).  Skips ASCII whitespace,
lexes numeric literals (including leading-dot literals such as `.5`),
matches `//` and `**` greedily before `/` and `*`, and fails with a
`LexError` on any other character.  `fuel` bounds the recursion; every
step consumes at least one character, so `length + 1` fuel always
suffices. -/
def tokenizeAux : Nat → Nat → List Char → Except LexError (List Tok)
  | 0, pos, _ => .error ⟨pos, ' '⟩
  | f + 1, pos, cs =>
    match cs with
    | [] => .ok []
    | c :: rest =>
      if isWS c then tokenizeAux f (pos + 1) rest
      else if c.isDigit then
        let p := lexNum (c :: rest)
        withTok p.1 (tokenizeAux f (pos + ((c :: rest).length - p.2.length)) p.2)
      else if c = '.' then
        match takeDigits rest with
        | ([], _) => .error ⟨pos, '.'⟩
        | (fs, r2) =>
          withTok (.num (.vFloat (mkDec [] fs)))
            (tokenizeAux f (pos + 1 + fs.length) r2)
      else if c = '/' then
        match rest with
        | '/' :: r2 => withTok .dslash (tokenizeAux f (pos + 2) r2)
        | _ => withTok .slash (tokenizeAux f (pos + 1) rest)
      else if c = '*' then
        match rest with
        | '*' :: r2 => withTok .dstar (tokenizeAux f (pos + 2) r2)
        | _ => withTok .star (tokenizeAux f (pos + 1) rest)
      else if c = '+' then withTok .plus (tokenizeAux f (pos + 1) rest)
      else if c = '-' then withTok .minus (tokenizeAux f (pos + 1) rest)
      else if c = '(' then withTok .lparen (tokenizeAux f (pos + 1) rest)
      else if c = ')' then withTok .rparen (tokenizeAux f (pos + 1) rest)
      else if c = '%' then withTok .percent (tokenizeAux f (pos + 1) rest)
      else .error ⟨pos, c⟩

/-- Modelled from the spec: `tokenize(input) -> Result<tokens, LexError>`
(section 4.1). -/
def tokenize (s : String) : Except LexError (List Tok) :=
  tokenizeAux (s.data.length + 1) 0 s.data

/-- The characters the tokenizer itself can consume: digits, `.`, the
operator and parenthesis characters, and whitespace. -/
def lexableChar (c : Char) : Bool :=
  c.isDigit || c == '.' || c == '+' || c == '-' || c == '*' || c == '/' ||
  c == '(' || c == ')' || c == '%' || isWS c

/-- The accepted input character set of spec section 6: the lexable
characters plus the unicode glyphs `×` and `÷` removed by
normalization before scanning. -/
def acceptedChar (c : Char) : Bool :=
  lexableChar c || c == '×' || c == '÷'

instance {ε α : Type} [DecidableEq ε] [DecidableEq α] :
    DecidableEq (Except ε α) := fun x y =>
  match x, y with
  | .error e, .error e' =>
    if h : e = e' then .isTrue (by rw [h]) else .isFalse (by simp [h])
  | .error _, .ok _ => .isFalse (by simp)
  | .ok _, .error _ => .isFalse (by simp)
  | .ok a, .ok a' =>
    if h : a = a' then .isTrue (by rw [h]) else .isFalse (by simp [h])

/-- Unary operators of the AST (`ast.UAdd` / `ast.USub`). -/
inductive UnOp : Type
  | pos | neg
deriving DecidableEq

/-- Binary operators of the AST, the keys of `_ALLOWED_BIN_OPS`. -/
inductive BinOp : Type
  | add | sub | mul | div | floorDiv | mod | pow
deriving DecidableEq

/-- The expression AST: number literals, unary operations and binary
operations — the node shapes `_eval_ast` accepts (spec section 3). -/
inductive Ast : Type
  | num (v : Value)
  | unaryOp (op : UnOp) (e : Ast)
  | binOp (op : BinOp) (l r : Ast)
deriving DecidableEq

/-- Modelled from the spec: `SyntaxError{position, expected, found}` of
section 4.2, reduced to the unexpected token (`none` = end of input);
positions and the expected-set are not tracked, since nothing in the
source observes them (`safe_eval` collapses every parse failure). -/
structure SynError : Type where
  found : Option Tok
deriving DecidableEq

/-- Grammar rule selector for the fueled recursive-descent parser:
the rules of spec section 4.2 plus the left-association loops of
`additive` and `multiplicative` (carrying the accumulated left
operand) as explicit states. -/
inductive Rule : Type
  | addR | addLoop (acc : Ast) | mulR | mulLoop (acc : Ast)
  | unR | powR | primR

/-- Modelled from the spec: the precedence-climbing parser of section
4.2 (absent from the source, which parses via the host parser):

```
additive       := multiplicative (('+' | '-') multiplicative)*
multiplicative := unary (('*' | '/' | '//' | '%') unary)*
unary          := ('+' | '-') unary | power
power          := primary ('**' unary)?
primary        := NUMBER | '(' additive ')'
```

`fuel` bounds the recursion; `pyParse` passes enough for any input. -/
def parseR : Nat → Rule → List Tok → Except SynError (Ast × List Tok)
  | 0, _, _ => .error ⟨none⟩
  | f + 1, r, ts =>
    match r with
    | .addR =>
      match parseR f .mulR ts with
      | .error e => .error e
      | .ok (l, ts1) => parseR f (.addLoop l) ts1
    | .addLoop acc =>
      match ts with
      | .plus :: ts1 =>
        match parseR f .mulR ts1 with
        | .error e => .error e
        | .ok (rhs, ts2) => parseR f (.addLoop (.binOp .add acc rhs)) ts2
      | .minus :: ts1 =>
        match parseR f .mulR ts1 with
        | .error e => .error e
        | .ok (rhs, ts2) => parseR f (.addLoop (.binOp .sub acc rhs)) ts2
      | _ => .ok (acc, ts)
    | .mulR =>
      match parseR f .unR ts with
      | .error e => .error e
      | .ok (l, ts1) => parseR f (.mulLoop l) ts1
    | .mulLoop acc =>
      match ts with
      | .star :: ts1 =>
        match parseR f .unR ts1 with
        | .error e => .error e
        | .ok (rhs, ts2) => parseR f (.mulLoop (.binOp .mul acc rhs)) ts2
      | .slash :: ts1 =>
        match parseR f .unR ts1 with
        | .error e => .error e
        | .ok (rhs, ts2) => parseR f (.mulLoop (.binOp .div acc rhs)) ts2
      | .dslash :: ts1 =>
        match parseR f .unR ts1 with
        | .error e => .error e
        | .ok (rhs, ts2) => parseR f (.mulLoop (.binOp .floorDiv acc rhs)) ts2
      | .percent :: ts1 =>
        match parseR f .unR ts1 with
        | .error e => .error e
        | .ok (rhs, ts2) => parseR f (.mulLoop (.binOp .mod acc rhs)) ts2
      | _ => .ok (acc, ts)
    | .unR =>
      match ts with
      | .plus :: ts1 =>
        match parseR f .unR ts1 with
        | .error e => .error e
        | .ok (e, ts2) => .ok (.unaryOp .pos e, ts2)
      | .minus :: ts1 =>
        match parseR f .unR ts1 with
        | .error e => .error e
        | .ok (e, ts2) => .ok (.unaryOp .neg e, ts2)
      | _ => parseR f .powR ts
    | .powR =>
      match parseR f .primR ts with
      | .error e => .error e
      | .ok (b, ts1) =>
        match ts1 with
        | .dstar :: ts2 =>
          match parseR f .unR ts2 with
          | .error e => .error e
          | .ok (e, ts3) => .ok (.binOp .pow b e, ts3)
        | _ => .ok (b, ts1)
    | .primR =>
      match ts with
      | .num v :: ts1 => .ok (.num v, ts1)
      | .lparen :: ts1 =>
        match parseR f .addR ts1 with
        | .error e => .error e
        | .ok (e, ts2) =>
          match ts2 with
          | .rparen :: ts3 => .ok (e, ts3)
          | t :: _ => .error ⟨some t⟩
          | [] => .error ⟨none⟩
      | t :: _ => .error ⟨some t⟩
      | [] => .error ⟨none⟩

/-- Parse failure of the modelled host parser: a lexical or a
structural error. -/
inductive ParseErr : Type
  | lex (e : LexError)
  | syn (e : SynError)
deriving DecidableEq

/-- Generous fuel bound for `parseR` on `n` tokens. -/
def parseFuel (n : Nat) : Nat :=
  8 * (n + 2) * (n + 2)

/-- Modelled from the spec: the whole parse step standing in for
`ast.parse(expr, mode="eval")` — tokenize, parse an `additive`, and
require the token stream to be exhausted (trailing tokens are a
structural error, spec section 4.2). -/
def pyParse (s : String) : Except ParseErr Ast :=
  match tokenize s with
  | .error e => .error (.lex e)
  | .ok toks =>
    match parseR (parseFuel toks.length) .addR toks with
    | .error e => .error (.syn e)
    | .ok (a, []) => .ok a
    | .ok (_, t :: _) => .error (.syn ⟨some t⟩)

/-- The Python exceptions `safe_eval` and `Calculator.calculate` deal
in.  `synErr` stands for the host's parse exception, which `safe_eval`
catches and never lets escape (it re-raises `ValueError("Syntax
error")`). -/
inductive PyExc : Type
  | valueError (msg : String)
  | zeroDivisionError (msg : String)
  | synErr (msg : String)
deriving DecidableEq

/-- Fueled binary exponentiation on `ℤ`: the value of Python's `**` on
integers with a nonnegative exponent (`fuel > log2 n` suffices; callers
pass `n + 1`). -/
def ipowAux : Nat → ℤ → Nat → ℤ
  | 0, _, _ => 1
  | f + 1, a, n =>
    if n = 0 then 1
    else
      let h := ipowAux f a (n / 2)
      if n % 2 = 0 then h * h else h * h * a

/-- Integer power `a ^ n` (binary exponentiation). -/
def ipow (a : ℤ) (n : Nat) : ℤ :=
  ipowAux (n + 1) a n

/-- Fueled binary exponentiation on `ℚ`. -/
def qpowAux : Nat → ℚ → Nat → ℚ
  | 0, _, _ => 1
  | f + 1, a, n =>
    if n = 0 then 1
    else
      let h := qpowAux f a (n / 2)
      if n % 2 = 0 then h * h else h * h * a

/-- Rational power with an integer exponent: the exact value of
Python's `**` when the exponent is integral (negative exponents go
through the reciprocal, as `float` power does; the zero-base negative
exponent case is guarded before this is reached). -/
def qpow (b : ℚ) (n : ℤ) : ℚ :=
  if 0 ≤ n then qpowAux (n.toNat + 1) b n.toNat
  else (qpowAux ((-n).toNat + 1) b (-n).toNat)⁻¹

/-- Stand-in value for `b ** e` with a non-integral exponent.  The true
result is an irrational real (or a complex number for negative bases)
and does not exist in `ℚ`; no claim below depends on this value, only
on the fact that this case raises no exception, which matches the
host.  The error case (zero base, negative exponent) is handled before
this function is reached. -/
def rpowStandIn (b e : ℚ) : ℚ :=
  if b = 0 ∧ 0 < e then 0 else 1

/-- Value of `operator.pow` in the non-exceptional cases: `int ** int`
with nonnegative exponent stays an `int`; every other combination is a
`float` (Python converts). -/
def powValue (l r : Value) : Value :=
  match l, r with
  | .vInt a, .vInt n =>
    if 0 ≤ n then .vInt (ipow a n.toNat) else .vFloat (qpow (a : ℚ) n)
  | _, _ =>
    if r.toRat.den = 1 then .vFloat (qpow l.toRat r.toRat.num)
    else .vFloat (rpowStandIn l.toRat r.toRat)

/-- Value of `operator.add` / `sub` / `mul`: `int` arithmetic when both
operands are `int`s, `float` arithmetic otherwise. -/
def arithValue (fi : ℤ → ℤ → ℤ) (fq : ℚ → ℚ → ℚ) (l r : Value) : Value :=
  match l, r with
  | .vInt a, .vInt b => .vInt (fi a b)
  | _, _ => .vFloat (fq l.toRat r.toRat)

/-- Value of `operator.floordiv` (nonzero divisor): floor of the exact
quotient; an `int` exactly when both operands are `int`s. -/
def floorDivValue (l r : Value) : Value :=
  match l, r with
  | .vInt a, .vInt b => .vInt ⌊(a : ℚ) / (b : ℚ)⌋
  | _, _ => .vFloat ((⌊l.toRat / r.toRat⌋ : ℤ) : ℚ)

/-- Value of `operator.mod` (nonzero divisor): the floor-division
remainder `a - b * ⌊a / b⌋`; an `int` exactly when both operands are
`int`s. -/
def modValue (l r : Value) : Value :=
  match l, r with
  | .vInt a, .vInt b => .vInt (a - b * ⌊(a : ℚ) / (b : ℚ)⌋)
  | _, _ => .vFloat (l.toRat - r.toRat * ((⌊l.toRat / r.toRat⌋ : ℤ) : ℚ))

/-- One binary operation of `_eval_ast` (lines 41–50 of the source):
first the zero-divisor guard for `/`, `//`, `%`, then the exponent
magnitude guard for `**`, then the host operator — whose power case
itself raises `ZeroDivisionError` on a zero base with a negative
exponent.  The host's `OverflowError` path (float power overflow,
out-of-range int-to-float conversion) is a binary64-range behavior
outside this exact-number model, so the operations here are total
beyond the guards above. -/
def applyBin (op : BinOp) (l r : Value) : Except PyExc Value :=
  if (op = .div ∨ op = .floorDiv ∨ op = .mod) ∧ r.toRat = 0 then
    .error (.zeroDivisionError "division by zero")
  else if op = .pow ∧ 1000 < |r.toRat| then
    .error (.valueError "exponent too large")
  else
    match op with
    | .add => .ok (arithValue (· + ·) (· + ·) l r)
    | .sub => .ok (arithValue (· - ·) (· - ·) l r)
    | .mul => .ok (arithValue (· * ·) (· * ·) l r)
    | .div => .ok (.vFloat (l.toRat / r.toRat))
    | .floorDiv => .ok (floorDivValue l r)
    | .mod => .ok (modValue l r)
    | .pow =>
      if l.toRat = 0 ∧ r.toRat < 0 then
        .error (.zeroDivisionError "0.0 cannot be raised to a negative power")
      else .ok (powValue l r)

/-- One unary operation of `_eval_ast` (`operator.pos` / `operator.neg`):
total, tag preserving. -/
def applyUn : UnOp → Value → Value
  | .pos, v => v
  | .neg, .vInt n => .vInt (-n)
  | .neg, .vFloat q => .vFloat (-q)

/-- The evaluator `_eval_ast`: bottom-up, left operand before right,
short-circuiting on the first exception. -/
def evalAst : Ast → Except PyExc Value
  | .num v => .ok v
  | .unaryOp op e =>
    match evalAst e with
    | .error err => .error err
    | .ok v => .ok (applyUn op v)
  | .binOp op l r =>
    match evalAst l with
    | .error err => .error err
    | .ok lv =>
      match evalAst r with
      | .error err => .error err
      | .ok rv => applyBin op lv rv

/-- The source's `safe_eval`: normalize the unicode signs, parse, and
convert any host parse failure into `ValueError("Syntax error")`, then
evaluate. -/
def safe_eval (s : String) : Except PyExc Value :=
  match pyParse (normalize s) with
  | .error _ => .error (.valueError "Syntax error")
  | .ok a => evalAst a

/-- Decimal digit character for `n` (used with `n < 10`). -/
def digitChar (n : Nat) : Char :=
  Char.ofNat (48 + n % 10)

/-- Decimal digit characters of a natural number, most significant
first (`fuel ≥` the number of digits suffices; callers pass `n + 1`). -/
def natDigits : Nat → Nat → List Char
  | 0, _ => []
  | f + 1, n =>
    if n < 10 then [digitChar n]
    else natDigits f (n / 10) ++ [digitChar (n % 10)]

/-- Decimal string of a natural number. -/
def natStr (n : Nat) : String :=
  ⟨natDigits (n + 1) n⟩

/-- The display form `str(int)`: decimal digits with a leading `-` for
negatives. -/
def intStr (n : ℤ) : String :=
  if n < 0 then "-" ++ natStr n.natAbs else natStr n.toNat

/-- Fractional decimal digits of `r ∈ [0, 1)`, stopping at the exact
terminating expansion (or at fuel exhaustion for non-terminating
values, which no formatted claim value reaches). -/
def fracDigits : Nat → ℚ → List Char
  | 0, _ => []
  | f + 1, r =>
    let r10 := r * 10
    let d := ⌊r10⌋
    if r10 - (d : ℚ) = 0 then [digitChar d.toNat]
    else digitChar d.toNat :: fracDigits f (r10 - (d : ℚ))

/-- The display form `str(float)` for the exactly-represented values in
scope: sign, integer part, `.`, fractional digits. -/
def floatStr (q : ℚ) : String :=
  (if q < 0 then "-" else "") ++ natStr (⌊|q|⌋).toNat ++ "." ++
    ⟨fracDigits 60 (|q| - (⌊|q|⌋ : ℚ))⟩

/-- Display formatting in `Calculator.calculate`: a `float` with no
fractional part is converted to `int` before `str()`. -/
def formatValue : Value → String
  | .vInt n => intStr n
  | .vFloat q => if q.den = 1 then intStr q.num else floatStr q

/-- The source's `Calculator.calculate`: trim, the `"0"` fast path for
empty input, then `safe_eval` with `ZeroDivisionError` mapped to
`"Error: ÷ by 0"` and every other exception to `"Error"`. -/
def calculate (s : String) : String :=
  if pyStrip s = "" then "0"
  else
    match safe_eval (pyStrip s) with
    | .ok v => formatValue v
    | .error (.zeroDivisionError _) => "Error: ÷ by 0"
    | .error _ => "Error"

/-- The spec's boundary function `evaluate_expression` (section 4.4) is
the calculation entry point of the source. -/
def evaluate_expression (s : String) : String :=
  calculate s

/-! ### String, normalization and trimming lemmas -/

lemma string_eq_empty_iff (s : String) : s = "" ↔ s.data = [] := by
  cases s with
  | mk d =>
    constructor
    · intro h
      rw [h]
    · intro h
      simp only at h
      rw [h]

lemma normChar_normChar (c : Char) : normChar (normChar c) = normChar c := by
  by_cases h1 : c = '×'
  · simp [normChar, h1]
  · by_cases h2 : c = '÷'
    · simp [normChar, h2]
    · simp [normChar, h1, h2]

lemma pyIsSpace_normChar (c : Char) : pyIsSpace (normChar c) = pyIsSpace c := by
  by_cases h1 : c = '×'
  · subst h1
    decide
  · by_cases h2 : c = '÷'
    · subst h2
      decide
    · simp [normChar, h1, h2]

lemma isWS_pyIsSpace (c : Char) (h : isWS c = true) : pyIsSpace c = true := by
  simp only [isWS, Bool.or_eq_true, beq_iff_eq] at h
  rcases h with ((((rfl | rfl) | rfl) | rfl) | rfl) | rfl <;> rfl

lemma normChar_eq_self (c : Char) (h1 : c ≠ '×') (h2 : c ≠ '÷') :
    normChar c = c := by
  simp [normChar, h1, h2]

lemma map_normChar_idem (l : List Char) :
    (l.map normChar).map normChar = l.map normChar := by
  induction l with
  | nil => rfl
  | cons c t ih => simp [List.map_cons, ih, normChar_normChar]

lemma dropWhile_map_norm (l : List Char) :
    (l.map normChar).dropWhile pyIsSpace =
      (l.dropWhile pyIsSpace).map normChar := by
  induction l with
  | nil => rfl
  | cons c t ih =>
    by_cases h : pyIsSpace c
    · have h' : pyIsSpace (normChar c) = true := by
        rw [pyIsSpace_normChar]
        exact h
      simp [List.dropWhile_cons, h, h', ih]
    · have h' : pyIsSpace (normChar c) = false := by
        rw [pyIsSpace_normChar]
        exact Bool.not_eq_true _ |>.mp h
      simp [List.dropWhile_cons, h, h']

lemma stripList_map_norm (l : List Char) :
    stripList (l.map normChar) = (stripList l).map normChar := by
  unfold stripList
  rw [dropWhile_map_norm, ← List.map_reverse, dropWhile_map_norm,
    ← List.map_reverse]

lemma pyStrip_normalize (s : String) :
    pyStrip (normalize s) = normalize (pyStrip s) := by
  unfold pyStrip normalize
  exact congrArg String.mk (stripList_map_norm s.data)

lemma normalize_idem (s : String) : normalize (normalize s) = normalize s := by
  unfold normalize
  exact congrArg String.mk (map_normChar_idem s.data)

lemma safe_eval_normalize (s : String) :
    safe_eval (normalize s) = safe_eval s := by
  unfold safe_eval
  rw [normalize_idem]

lemma normalize_eq_empty_iff (s : String) : normalize s = "" ↔ s = "" := by
  rw [string_eq_empty_iff, string_eq_empty_iff]
  unfold normalize
  simp

lemma mem_dropWhile_of_not_space (l : List Char) (c : Char) (hc : c ∈ l)
    (h : pyIsSpace c = false) : c ∈ l.dropWhile pyIsSpace := by
  induction l with
  | nil => cases hc
  | cons a t ih =>
    by_cases ha : pyIsSpace a
    · rcases List.mem_cons.mp hc with rfl | ht
      · rw [ha] at h
        cases h
      · simp [List.dropWhile_cons, ha]
        exact ih ht
    · simp only [List.dropWhile_cons, ha]
      simpa using hc

lemma mem_stripList_of_not_space (l : List Char) (c : Char) (hc : c ∈ l)
    (h : pyIsSpace c = false) : c ∈ stripList l := by
  unfold stripList
  rw [List.mem_reverse]
  apply mem_dropWhile_of_not_space _ _ _ h
  rw [List.mem_reverse]
  exact mem_dropWhile_of_not_space _ _ hc h

lemma stripList_all_space (l : List Char) (h : ∀ c ∈ l, pyIsSpace c = true) :
    stripList l = [] := by
  unfold stripList
  have h1 : l.dropWhile pyIsSpace = [] := List.dropWhile_eq_nil_iff.mpr h
  rw [h1]
  rfl

/-! ### Tokenizer lemmas -/

lemma takeDigits_append (l : List Char) :
    (takeDigits l).1 ++ (takeDigits l).2 = l := by
  induction l with
  | nil => rfl
  | cons c t ih =>
    by_cases h : c.isDigit
    · simp [takeDigits, h, ih]
    · simp [takeDigits, h]

lemma takeDigits_digits (l : List Char) (c : Char)
    (hc : c ∈ (takeDigits l).1) : c.isDigit = true := by
  induction l with
  | nil => cases hc
  | cons a t ih =>
    by_cases h : a.isDigit
    · simp only [takeDigits, h, if_pos] at hc
      rcases List.mem_cons.mp hc with rfl | hm
      · exact h
      · exact ih hm
    · simp [takeDigits, h] at hc

lemma withTok_ok {t : Tok} {r : Except LexError (List Tok)} {ts : List Tok}
    (h : withTok t r = .ok ts) : ∃ ts0, r = .ok ts0 := by
  cases r with
  | error e => simp [withTok] at h
  | ok ts0 => exact ⟨ts0, rfl⟩

lemma digit_lexable (c : Char) (h : c.isDigit = true) :
    lexableChar c = true := by
  simp [lexableChar, h]

lemma lexNum_split (cs : List Char) :
    ∃ pre, cs = pre ++ (lexNum cs).2 ∧ ∀ c ∈ pre, lexableChar c = true := by
  have had := takeDigits_append cs
  unfold lexNum
  split
  · next ds r2 heq =>
    rw [heq] at had
    dsimp only at had
    have hds : (takeDigits cs).1 = ds := by rw [heq]
    split
    · next x hteq =>
      refine ⟨ds, ?_, ?_⟩
      · exact had.symm
      · intro c hc
        rw [← hds] at hc
        exact digit_lexable c (takeDigits_digits cs c hc)
    · next fs r3 hcon hteq =>
      have had2 := takeDigits_append r2
      rw [hteq] at had2
      dsimp only at had2
      refine ⟨ds ++ '.' :: fs, ?_, ?_⟩
      · rw [List.append_assoc]
        simp only [List.cons_append]
        rw [had2, had]
      · intro c hc
        rcases List.mem_append.mp hc with hm | hm
        · rw [← hds] at hm
          exact digit_lexable c (takeDigits_digits cs c hm)
        · rcases List.mem_cons.mp hm with rfl | hm2
          · rfl
          · refine digit_lexable c (takeDigits_digits r2 c ?_)
            rw [hteq]
            exact hm2
  · next ds rest1 hcon heq =>
    rw [heq] at had
    dsimp only at had
    have hds : (takeDigits cs).1 = ds := by rw [heq]
    refine ⟨ds, ?_, ?_⟩
    · exact had.symm
    · intro c hc
      rw [← hds] at hc
      exact digit_lexable c (takeDigits_digits cs c hc)

lemma tokenizeAux_ok_lexable (f : Nat) :
    ∀ (pos : Nat) (cs : List Char) (ts : List Tok),
      tokenizeAux f pos cs = .ok ts → ∀ c ∈ cs, lexableChar c = true := by
  induction f with
  | zero =>
    intro pos cs ts h
    simp [tokenizeAux] at h
  | succ f ih =>
    intro pos cs ts h c hc
    cases cs with
    | nil => cases hc
    | cons a rest =>
      simp only [tokenizeAux] at h
      by_cases hws : isWS a = true
      · rw [if_pos hws] at h
        rcases List.mem_cons.mp hc with rfl | hm
        · simp [lexableChar, hws]
        · exact ih _ _ _ h c hm
      · rw [if_neg hws] at h
        by_cases hd : a.isDigit = true
        · rw [if_pos hd] at h
          obtain ⟨ts0, h0⟩ := withTok_ok h
          obtain ⟨pre, heq, hpre⟩ := lexNum_split (a :: rest)
          rw [heq] at hc
          rcases List.mem_append.mp hc with hm | hm
          · exact hpre c hm
          · exact ih _ _ _ h0 c hm
        · rw [if_neg hd] at h
          by_cases hdot : a = '.'
          · rw [if_pos hdot] at h
            split at h
            · cases h
            · next fs r2 hteq =>
              obtain ⟨ts0, h0⟩ := withTok_ok h
              have had := takeDigits_append rest
              rw [hteq] at had
              rcases List.mem_cons.mp hc with rfl | hm
              · simp [lexableChar, hdot]
              · rw [← had] at hm
                rcases List.mem_append.mp hm with hm2 | hm2
                · refine digit_lexable c (takeDigits_digits rest c ?_)
                  rw [hteq]
                  exact hm2
                · exact ih _ _ _ h0 c hm2
          · rw [if_neg hdot] at h
            by_cases hsl : a = '/'
            · rw [if_pos hsl] at h
              split at h
              · obtain ⟨ts0, h0⟩ := withTok_ok h
                rcases List.mem_cons.mp hc with rfl | hm
                · simp [lexableChar, hsl]
                · rcases List.mem_cons.mp hm with rfl | hm2
                  · simp [lexableChar]
                  · exact ih _ _ _ h0 c hm2
              · obtain ⟨ts0, h0⟩ := withTok_ok h
                rcases List.mem_cons.mp hc with rfl | hm
                · simp [lexableChar, hsl]
                · exact ih _ _ _ h0 c hm
            · rw [if_neg hsl] at h
              by_cases hst : a = '*'
              · rw [if_pos hst] at h
                split at h
                · obtain ⟨ts0, h0⟩ := withTok_ok h
                  rcases List.mem_cons.mp hc with rfl | hm
                  · simp [lexableChar, hst]
                  · rcases List.mem_cons.mp hm with rfl | hm2
                    · simp [lexableChar]
                    · exact ih _ _ _ h0 c hm2
                · obtain ⟨ts0, h0⟩ := withTok_ok h
                  rcases List.mem_cons.mp hc with rfl | hm
                  · simp [lexableChar, hst]
                  · exact ih _ _ _ h0 c hm
              · rw [if_neg hst] at h
                by_cases hpl : a = '+'
                · rw [if_pos hpl] at h
                  obtain ⟨ts0, h0⟩ := withTok_ok h
                  rcases List.mem_cons.mp hc with rfl | hm
                  · simp [lexableChar, hpl]
                  · exact ih _ _ _ h0 c hm
                · rw [if_neg hpl] at h
                  by_cases hmn : a = '-'
                  · rw [if_pos hmn] at h
                    obtain ⟨ts0, h0⟩ := withTok_ok h
                    rcases List.mem_cons.mp hc with rfl | hm
                    · simp [lexableChar, hmn]
                    · exact ih _ _ _ h0 c hm
                  · rw [if_neg hmn] at h
                    by_cases hlp : a = '('
                    · rw [if_pos hlp] at h
                      obtain ⟨ts0, h0⟩ := withTok_ok h
                      rcases List.mem_cons.mp hc with rfl | hm
                      · simp [lexableChar, hlp]
                      · exact ih _ _ _ h0 c hm
                    · rw [if_neg hlp] at h
                      by_cases hrp : a = ')'
                      · rw [if_pos hrp] at h
                        obtain ⟨ts0, h0⟩ := withTok_ok h
                        rcases List.mem_cons.mp hc with rfl | hm
                        · simp [lexableChar, hrp]
                        · exact ih _ _ _ h0 c hm
                      · rw [if_neg hrp] at h
                        by_cases hpc : a = '%'
                        · rw [if_pos hpc] at h
                          obtain ⟨ts0, h0⟩ := withTok_ok h
                          rcases List.mem_cons.mp hc with rfl | hm
                          · simp [lexableChar, hpc]
                          · exact ih _ _ _ h0 c hm
                        · rw [if_neg hpc] at h
                          cases h

lemma tokenize_ok_lexable (s : String) (ts : List Tok)
    (h : tokenize s = .ok ts) : ∀ c ∈ s.data, lexableChar c = true :=
  tokenizeAux_ok_lexable _ _ _ _ h

lemma tokenize_error_of_bad (s : String) (c : Char) (hc : c ∈ s.data)
    (h : lexableChar c = false) : ∃ le, tokenize s = .error le := by
  cases he : tokenize s with
  | error le => exact ⟨le, rfl⟩
  | ok ts =>
    have := tokenize_ok_lexable s ts he c hc
    rw [h] at this
    cases this

/-! ### Display-formatting lemmas -/

lemma digitChar_isDigit (n : Nat) : (digitChar n).isDigit = true := by
  unfold digitChar
  have h : n % 10 < 10 := Nat.mod_lt _ (by norm_num)
  set k := n % 10 with hk
  interval_cases k <;> decide

lemma natDigits_digits (f : Nat) :
    ∀ n c, c ∈ natDigits f n → c.isDigit = true := by
  induction f with
  | zero =>
    intro n c hc
    simp [natDigits] at hc
  | succ f ih =>
    intro n c hc
    unfold natDigits at hc
    by_cases h : n < 10
    · rw [if_pos h] at hc
      rcases List.mem_cons.mp hc with rfl | hm
      · exact digitChar_isDigit n
      · cases hm
    · rw [if_neg h] at hc
      rcases List.mem_append.mp hc with hm | hm
      · exact ih _ c hm
      · rcases List.mem_cons.mp hm with rfl | hm2
        · exact digitChar_isDigit _
        · cases hm2

lemma natDigits_ne_nil (f n : Nat) (hf : 0 < f) : natDigits f n ≠ [] := by
  cases f with
  | zero => cases hf
  | succ f =>
    unfold natDigits
    by_cases h : n < 10
    · simp [h]
    · simp [h]

lemma natStr_head (n : Nat) :
    ∃ c cs, (natStr n).data = c :: cs ∧ c.isDigit = true := by
  have hne := natDigits_ne_nil (n + 1) n (Nat.succ_pos n)
  cases hl : natDigits (n + 1) n with
  | nil => exact absurd hl hne
  | cons c cs =>
    refine ⟨c, cs, ?_, ?_⟩
    · unfold natStr
      rw [hl]
    · refine natDigits_digits (n + 1) n c ?_
      rw [hl]
      exact List.mem_cons_self c cs

lemma data_append_head (a b : String) (c : Char) (cs : List Char)
    (h : a.data = c :: cs) : (a ++ b).data = c :: (cs ++ b.data) := by
  rw [String.data_append, h]
  rfl

lemma formatValue_head (v : Value) :
    ∃ c cs, (formatValue v).data = c :: cs ∧ (c = '-' ∨ c.isDigit = true) := by
  have hint : ∀ n : ℤ, ∃ c cs, (intStr n).data = c :: cs ∧
      (c = '-' ∨ c.isDigit = true) := by
    intro n
    unfold intStr
    by_cases h : n < 0
    · rw [if_pos h]
      obtain ⟨c, cs, hd, _⟩ := natStr_head n.natAbs
      refine ⟨'-', (natStr n.natAbs).data, ?_, Or.inl rfl⟩
      rw [String.data_append]
      rfl
    · rw [if_neg h]
      obtain ⟨c, cs, hd, hdig⟩ := natStr_head n.toNat
      exact ⟨c, cs, hd, Or.inr hdig⟩
  cases v with
  | vInt n => exact hint n
  | vFloat q =>
    simp only [formatValue]
    by_cases h : q.den = 1
    · rw [if_pos h]
      exact hint q.num
    · rw [if_neg h]
      unfold floatStr
      by_cases hq : q < 0
      · rw [if_pos hq]
        have h1 := data_append_head "-" (natStr (⌊|q|⌋).toNat) '-' [] rfl
        have h2 := data_append_head _ "." _ _ h1
        have h3 := data_append_head _
          (⟨fracDigits 60 (|q| - (⌊|q|⌋ : ℚ))⟩ : String) _ _ h2
        exact ⟨'-', _, h3, Or.inl rfl⟩
      · rw [if_neg hq]
        obtain ⟨c, cs, hd, hdig⟩ := natStr_head (⌊|q|⌋).toNat
        have h1 : (("" : String) ++ natStr (⌊|q|⌋).toNat).data = c :: cs := by
          rw [String.data_append, hd]
          rfl
        have h2 := data_append_head _ "." _ _ h1
        have h3 := data_append_head _
          (⟨fracDigits 60 (|q| - (⌊|q|⌋ : ℚ))⟩ : String) _ _ h2
        exact ⟨c, _, h3, Or.inr hdig⟩

lemma formatValue_ne_E (v : Value) (t : String) (r : List Char)
    (ht : t.data = 'E' :: r) : formatValue v ≠ t := by
  obtain ⟨c, cs, hd, hcase⟩ := formatValue_head v
  intro h
  rw [h, ht] at hd
  have hc : c = 'E' := (List.cons.injEq _ _ _ _ ▸ hd).1.symm
  rw [hc] at hcase
  rcases hcase with h1 | h1
  · cases h1
  · cases h1

/-! ### Evaluator lemmas -/

lemma applyBin_zdiv_iff (op : BinOp) (l r : Value) :
    (∃ m, applyBin op l r = .error (.zeroDivisionError m)) ↔
      (((op = .div ∨ op = .floorDiv ∨ op = .mod) ∧ r.toRat = 0) ∨
       (op = .pow ∧ |r.toRat| ≤ 1000 ∧ l.toRat = 0 ∧ r.toRat < 0)) := by
  cases op with
  | add => simp [applyBin]
  | sub => simp [applyBin]
  | mul => simp [applyBin]
  | div =>
    by_cases hz : r.toRat = 0
    · simp [applyBin, hz]
    · simp [applyBin, hz]
  | floorDiv =>
    by_cases hz : r.toRat = 0
    · simp [applyBin, hz]
    · simp [applyBin, hz]
  | mod =>
    by_cases hz : r.toRat = 0
    · simp [applyBin, hz]
    · simp [applyBin, hz]
  | pow =>
    by_cases hb : 1000 < |r.toRat|
    · have hb' : ¬(|r.toRat| ≤ 1000) := not_le.mpr hb
      simp [applyBin, hb, hb']
    · have hb' : |r.toRat| ≤ 1000 := not_lt.mp hb
      by_cases h3 : l.toRat = 0 ∧ r.toRat < 0
      · simp [applyBin, hb, hb', h3]
      · simp only [not_and] at h3
        by_cases hl0 : l.toRat = 0
        · have hr0 : ¬(r.toRat < 0) := h3 hl0
          simp [applyBin, hb, hb', hl0, hr0]
        · simp [applyBin, hb, hb', hl0]

lemma applyBin_div_ok (l r : Value) (h : r.toRat ≠ 0) :
    applyBin .div l r = .ok (.vFloat (l.toRat / r.toRat)) := by
  unfold applyBin
  rw [if_neg (by simp [h]), if_neg (by simp)]

lemma applyBin_floorDiv_ok (l r : Value) (h : r.toRat ≠ 0) :
    applyBin .floorDiv l r = .ok (floorDivValue l r) := by
  unfold applyBin
  rw [if_neg (by simp [h]), if_neg (by simp)]

lemma applyBin_mod_ok (l r : Value) (h : r.toRat ≠ 0) :
    applyBin .mod l r = .ok (modValue l r) := by
  unfold applyBin
  rw [if_neg (by simp [h]), if_neg (by simp)]

lemma applyBin_pow_guard (l r : Value) (h : 1000 < |r.toRat|) :
    applyBin .pow l r = .error (.valueError "exponent too large") := by
  unfold applyBin
  rw [if_neg (by simp), if_pos ⟨rfl, h⟩]

lemma evalAst_error_origin (e : Ast) (err : PyExc) (h : evalAst e = .error err) :
    ∃ op l r, applyBin op l r = .error err := by
  induction e with
  | num v => cases h
  | unaryOp op e ih =>
    simp only [evalAst] at h
    split at h
    · next e' heq =>
      injection h with h2
      subst h2
      exact ih heq
    · next v heq => cases h
  | binOp op l r ihl ihr =>
    simp only [evalAst] at h
    split at h
    · next e' heq =>
      injection h with h2
      subst h2
      exact ihl heq
    · next lv heq =>
      split at h
      · next e' heq2 =>
        injection h with h2
        subst h2
        exact ihr heq2
      · next rv heq2 => exact ⟨op, lv, rv, h⟩

lemma floorDivValue_toRat (a b : Value) :
    (floorDivValue a b).toRat = ((⌊a.toRat / b.toRat⌋ : ℤ) : ℚ) := by
  cases a <;> cases b <;> rfl

lemma floorDivValue_tag (a b : Value) :
    (floorDivValue a b).isIntTag = (a.isIntTag && b.isIntTag) := by
  cases a <;> cases b <;> rfl

lemma modValue_toRat (a b : Value) :
    (modValue a b).toRat =
      a.toRat - b.toRat * ((⌊a.toRat / b.toRat⌋ : ℤ) : ℚ) := by
  cases a with
  | vInt n =>
    cases b with
    | vInt m =>
      show ((n - m * ⌊(n : ℚ) / (m : ℚ)⌋ : ℤ) : ℚ) = _
      push_cast
      rfl
    | vFloat q => rfl
  | vFloat q =>
    cases b with
    | vInt m => rfl
    | vFloat q2 => rfl

lemma modValue_tag (a b : Value) :
    (modValue a b).isIntTag = (a.isIntTag && b.isIntTag) := by
  cases a <;> cases b <;> rfl

lemma qmod_bounds_pos (x p : ℚ) (hp : 0 < p) :
    0 ≤ x - p * ((⌊x / p⌋ : ℤ) : ℚ) ∧ x - p * ((⌊x / p⌋ : ℤ) : ℚ) < p := by
  have h1 := Int.sub_floor_div_mul_nonneg x hp
  have h2 := Int.sub_floor_div_mul_lt x hp
  have hcomm : ((⌊x / p⌋ : ℤ) : ℚ) * p = p * ((⌊x / p⌋ : ℤ) : ℚ) :=
    mul_comm _ _
  rw [hcomm] at h1 h2
  exact ⟨h1, h2⟩

lemma qmod_bounds_neg (x p : ℚ) (hp : p < 0) :
    p < x - p * ((⌊x / p⌋ : ℤ) : ℚ) ∧ x - p * ((⌊x / p⌋ : ℤ) : ℚ) ≤ 0 := by
  have hp' : 0 < -p := by linarith
  obtain ⟨h1, h2⟩ := qmod_bounds_pos (-x) (-p) hp'
  rw [neg_div_neg_eq] at h1 h2
  constructor <;> linarith

/-! ### Top-level lemmas -/

lemma calculate_of_empty (s : String) (h : pyStrip s = "") :
    calculate s = "0" := by
  unfold calculate
  rw [if_pos h]

lemma calculate_of_ok (s : String) (v : Value) (hne : pyStrip s ≠ "")
    (h : safe_eval (pyStrip s) = .ok v) : calculate s = formatValue v := by
  unfold calculate
  rw [if_neg hne, h]

lemma calculate_of_zdiv (s : String) (m : String) (hne : pyStrip s ≠ "")
    (h : safe_eval (pyStrip s) = .error (.zeroDivisionError m)) :
    calculate s = "Error: ÷ by 0" := by
  unfold calculate
  rw [if_neg hne, h]

lemma calculate_of_other (s : String) (err : PyExc) (hne : pyStrip s ≠ "")
    (h : safe_eval (pyStrip s) = .error err)
    (hz : ∀ m, err ≠ .zeroDivisionError m) : calculate s = "Error" := by
  unfold calculate
  rw [if_neg hne, h]
  cases err with
  | valueError m => rfl
  | zeroDivisionError m => exact absurd rfl (hz m)
  | synErr m => rfl

lemma safe_eval_parse_err (s : String) (pe : ParseErr)
    (h : pyParse (normalize s) = .error pe) :
    safe_eval s = .error (.valueError "Syntax error") := by
  unfold safe_eval
  rw [h]

lemma safe_eval_empty : safe_eval "" = .error (.valueError "Syntax error") := by
  with_unfolding_all rfl

/-! ### The claims -/

/-- Claim C1 (amended): the display string `"Error: ÷ by 0"` is produced
exactly when evaluation fails with `ZeroDivisionError`; a
`ZeroDivisionError` arises from one operator application exactly when
`/`, `//` or `%` is applied with a right operand equal to zero, **or**
when `**` is applied to a zero base with a negative exponent (of
magnitude at most 1000, the exponent guard firing first otherwise);
every evaluation failure originates in an operator application; and
every failure that is not a `ZeroDivisionError` displays the generic
`"Error"`. -/
theorem c1_divzero_collapse :
    (∀ s : String, evaluate_expression s = "Error: ÷ by 0" ↔
      ∃ m, safe_eval (pyStrip s) = .error (.zeroDivisionError m)) ∧
    (∀ (op : BinOp) (l r : Value),
      (∃ m, applyBin op l r = .error (.zeroDivisionError m)) ↔
        (((op = .div ∨ op = .floorDiv ∨ op = .mod) ∧ r.toRat = 0) ∨
         (op = .pow ∧ |r.toRat| ≤ 1000 ∧ l.toRat = 0 ∧ r.toRat < 0))) ∧
    (∀ (e : Ast) (err : PyExc), evalAst e = .error err →
      ∃ op l r, applyBin op l r = .error err) ∧
    (∀ (s : String) (err : PyExc), pyStrip s ≠ "" →
      safe_eval (pyStrip s) = .error err →
      (∀ m, err ≠ .zeroDivisionError m) → evaluate_expression s = "Error") := by
  refine ⟨?_, applyBin_zdiv_iff, evalAst_error_origin, ?_⟩
  · intro s
    simp only [evaluate_expression]
    by_cases he : pyStrip s = ""
    · rw [calculate_of_empty s he, he]
      constructor
      · intro h
        exact absurd h (by decide)
      · rintro ⟨m, hm⟩
        rw [safe_eval_empty] at hm
        injection hm with h'
        cases h'
    · cases hv : safe_eval (pyStrip s) with
      | ok v =>
        rw [calculate_of_ok s v he hv]
        constructor
        · intro h
          exact absurd h (formatValue_ne_E v _ _ rfl)
        · rintro ⟨m, hm⟩
          cases hm
      | error err =>
        cases err with
        | valueError m' =>
          rw [calculate_of_other s _ he hv (by intro m hh; cases hh)]
          constructor
          · intro h
            exact absurd h (by decide)
          · rintro ⟨m, hm⟩
            injection hm with h'
            cases h'
        | zeroDivisionError m' =>
          rw [calculate_of_zdiv s m' he hv]
          exact ⟨fun _ => ⟨m', rfl⟩, fun _ => rfl⟩
        | synErr m' =>
          rw [calculate_of_other s _ he hv (by intro m hh; cases hh)]
          constructor
          · intro h
            exact absurd h (by decide)
          · rintro ⟨m, hm⟩
            injection hm with h'
            cases h'
  · intro s err hne hv hz
    simp only [evaluate_expression]
    exact calculate_of_other s err hne hv hz

/-- Claim C1, refutation of the original wording: `"0**-1"` parses to a
pure power expression — no `/`, `//` or `%` anywhere in the AST — yet
the calculator displays the dedicated division-by-zero message, because
the host's power operator raises `ZeroDivisionError` on a zero base
with a negative exponent. -/
theorem c1_counterexample :
    evaluate_expression "0**-1" = "Error: ÷ by 0" ∧
    pyParse (normalize (pyStrip "0**-1")) =
      .ok (.binOp .pow (.num (.vInt 0)) (.unaryOp .neg (.num (.vInt 1)))) := by
  constructor
  · with_unfolding_all rfl
  · with_unfolding_all rfl

/-- Claim C1, witness: the amended theorem applied at the concrete
erroring evaluation `1 / 0`. -/
theorem c1_witness :
    evalAst (.binOp .div (.num (.vInt 1)) (.num (.vInt 0))) =
      .error (.zeroDivisionError "division by zero") ∧
    ∃ op l r, applyBin op l r =
      .error (.zeroDivisionError "division by zero") := by
  refine ⟨by with_unfolding_all rfl, ?_⟩
  exact c1_divzero_collapse.2.2.1
    (.binOp .div (.num (.vInt 1)) (.num (.vInt 0)))
    (.zeroDivisionError "division by zero") (by with_unfolding_all rfl)

/-- Claim C2 (amended): an input containing any character that is
outside the accepted set (digits, `.`, the operators and parentheses,
`×`, `÷`, whitespace) **and** is not one of the host's additional
`str.isspace()` characters (which `strip()` removes at the margins
before the tokenizer runs) makes the tokenizer fail with a lexical
error, and the top-level evaluation displays `"Error"` rather than a
numeric value. -/
theorem c2_reject_foreign_chars :
    ∀ s : String,
      (∃ c ∈ s.data, acceptedChar c = false ∧ pyIsSpace c = false) →
      (∃ le, tokenize (normalize (pyStrip s)) = .error le) ∧
      evaluate_expression s = "Error" := by
  rintro s ⟨c, hc, hbad, hsp⟩
  have hparts : lexableChar c = false ∧ (c == '×') = false ∧
      (c == '÷') = false := by
    unfold acceptedChar at hbad
    rcases Bool.or_eq_false_iff.mp hbad with ⟨h1, h2⟩
    rcases Bool.or_eq_false_iff.mp h1 with ⟨h3, h4⟩
    exact ⟨h3, h4, h2⟩
  obtain ⟨hlex, hx, hd⟩ := hparts
  have hxne : c ≠ '×' := ne_of_beq_false hx
  have hdne : c ≠ '÷' := ne_of_beq_false hd
  have hc1 : c ∈ (pyStrip s).data := mem_stripList_of_not_space s.data c hc hsp
  have hc2 : c ∈ (normalize (pyStrip s)).data := by
    have hm := List.mem_map_of_mem normChar hc1
    rw [normChar_eq_self c hxne hdne] at hm
    exact hm
  obtain ⟨le, hle⟩ := tokenize_error_of_bad _ c hc2 hlex
  refine ⟨⟨le, hle⟩, ?_⟩
  have hne : pyStrip s ≠ "" := by
    intro h
    rw [h] at hc1
    cases hc1
  have hparse : pyParse (normalize (pyStrip s)) = .error (.lex le) := by
    unfold pyParse
    rw [hle]
  have hsev := safe_eval_parse_err (pyStrip s) _ hparse
  simp only [evaluate_expression]
  exact calculate_of_other s _ hne hsev (by intro m hh; cases hh)

/-- Claim C2, refutation of the original wording: `U+001C` is outside
the accepted character set, yet `"1\x1c"` evaluates to the numeric
display `"1"` rather than an error, because `strip()` removes every
`str.isspace()` character — a wider set than the accepted ASCII
whitespace — before the input reaches the tokenizer. -/
theorem c2_counterexample :
    acceptedChar '\x1c' = false ∧ '\x1c' ∈ ("1\x1c" : String).data ∧
    evaluate_expression "1\x1c" = "1" := by
  refine ⟨by decide, by decide, ?_⟩
  with_unfolding_all rfl

/-- Claim C2, witness: `"2a"` contains the rejected, non-whitespace
character `a` and displays `"Error"`. -/
theorem c2_witness :
    (∃ c ∈ ("2a" : String).data, acceptedChar c = false ∧
      pyIsSpace c = false) ∧
    evaluate_expression "2a" = "Error" := by
  refine ⟨⟨'a', by decide, by decide, by decide⟩, ?_⟩
  exact (c2_reject_foreign_chars "2a" ⟨'a', by decide, by decide, by decide⟩).2

/-- Claim C3: whenever the evaluated right operand of `**` has absolute
value above 1000 — integer- or float-tagged alike — the operation fails
with the exponent-too-large `ValueError` before the power is computed;
at the boundary, `2**1000` evaluates successfully (to the exact integer
`2^1000`) and `2**1001` displays `"Error"`. -/
theorem c3_exponent_cap :
    (∀ l r : Value, 1000 < |r.toRat| →
      applyBin .pow l r = .error (.valueError "exponent too large")) ∧
    safe_eval "2**1000" = .ok (.vInt (ipow 2 1000)) ∧
    evaluate_expression "2**1001" = "Error" :=
  ⟨applyBin_pow_guard, by with_unfolding_all rfl, by with_unfolding_all rfl⟩

/-- Claim C3, witness: the guard applied at the float-tagged exponent
`1000.5`. -/
theorem c3_witness :
    1000 < |Value.toRat (.vFloat (2001/2))| ∧
    applyBin .pow (.vInt 2) (.vFloat (2001/2)) =
      .error (.valueError "exponent too large") := by
  refine ⟨by with_unfolding_all decide, ?_⟩
  exact c3_exponent_cap.1 (.vInt 2) (.vFloat (2001/2))
    (by with_unfolding_all decide)

/-- Claim C4: multiplication binds tighter than addition, parentheses
override precedence, and unary minus binds looser than `**` unless
parenthesized — shown on the displays and on the parsed ASTs. -/
theorem c4_precedence :
    evaluate_expression "2+3*4" = "14" ∧
    evaluate_expression "(2+3)*4" = "20" ∧
    evaluate_expression "-2**2" = "-4" ∧
    evaluate_expression "(-2)**2" = "4" ∧
    pyParse "2+3*4" =
      .ok (.binOp .add (.num (.vInt 2))
        (.binOp .mul (.num (.vInt 3)) (.num (.vInt 4)))) ∧
    pyParse "-2**2" =
      .ok (.unaryOp .neg (.binOp .pow (.num (.vInt 2)) (.num (.vInt 2)))) ∧
    pyParse "(-2)**2" =
      .ok (.binOp .pow (.unaryOp .neg (.num (.vInt 2))) (.num (.vInt 2))) := by
  refine ⟨?_, ?_, ?_, ?_, ?_, ?_, ?_⟩ <;> with_unfolding_all rfl

/-- Claim C5: floor division rounds toward negative infinity (it yields
`⌊a/b⌋` exactly), modulo is the floor-consistent remainder
`a - b·⌊a/b⌋` whose sign follows the divisor, both produce an
integer-tagged result exactly when both operands are integer-tagged,
and the stated examples display `"3"` and `"2"`. -/
theorem c5_floordiv_mod :
    (∀ a b : Value, b.toRat ≠ 0 →
      applyBin .floorDiv a b = .ok (floorDivValue a b) ∧
      (floorDivValue a b).toRat = ((⌊a.toRat / b.toRat⌋ : ℤ) : ℚ) ∧
      (floorDivValue a b).isIntTag = (a.isIntTag && b.isIntTag)) ∧
    (∀ a b : Value, b.toRat ≠ 0 →
      applyBin .mod a b = .ok (modValue a b) ∧
      (modValue a b).toRat =
        a.toRat - b.toRat * ((⌊a.toRat / b.toRat⌋ : ℤ) : ℚ) ∧
      (modValue a b).isIntTag = (a.isIntTag && b.isIntTag) ∧
      (0 < b.toRat →
        0 ≤ (modValue a b).toRat ∧ (modValue a b).toRat < b.toRat) ∧
      (b.toRat < 0 →
        b.toRat < (modValue a b).toRat ∧ (modValue a b).toRat ≤ 0)) ∧
    evaluate_expression "7//2" = "3" ∧
    evaluate_expression "-7%3" = "2" := by
  refine ⟨?_, ?_, by with_unfolding_all rfl, by with_unfolding_all rfl⟩
  · intro a b hb
    exact ⟨applyBin_floorDiv_ok a b hb, floorDivValue_toRat a b,
      floorDivValue_tag a b⟩
  · intro a b hb
    refine ⟨applyBin_mod_ok a b hb, modValue_toRat a b, modValue_tag a b,
      ?_, ?_⟩
    · intro hpos
      rw [modValue_toRat a b]
      exact qmod_bounds_pos a.toRat b.toRat hpos
    · intro hneg
      rw [modValue_toRat a b]
      exact qmod_bounds_neg a.toRat b.toRat hneg

/-- Claim C5, witness: the modulo clause applied at `-7 % 3`. -/
theorem c5_witness :
    Value.toRat (.vInt 3) ≠ 0 ∧
    applyBin .mod (.vInt (-7)) (.vInt 3) =
      .ok (modValue (.vInt (-7)) (.vInt 3)) := by
  refine ⟨by with_unfolding_all decide, ?_⟩
  exact (c5_floordiv_mod.2.1 (.vInt (-7)) (.vInt 3)
    (by with_unfolding_all decide)).1

/-- Claim C6: true division always produces a float-tagged value (the
exact quotient) whatever the operand tags; the display formatter turns
a float-tagged value with no fractional part into the integer display
and keeps fractional values in their decimal form; `4/2` displays
`"2"`. -/
theorem c6_truediv_float_display :
    (∀ a b : Value, b.toRat ≠ 0 →
      applyBin .div a b = .ok (.vFloat (a.toRat / b.toRat))) ∧
    (∀ q : ℚ, q.den = 1 →
      formatValue (.vFloat q) = formatValue (.vInt q.num)) ∧
    (∀ q : ℚ, q.den ≠ 1 → formatValue (.vFloat q) = floatStr q) ∧
    evaluate_expression "4/2" = "2" := by
  refine ⟨applyBin_div_ok, ?_, ?_, by with_unfolding_all rfl⟩
  · intro q h
    simp only [formatValue]
    rw [if_pos h]
  · intro q h
    simp only [formatValue]
    rw [if_neg h]

/-- Claim C6, witness: true division applied at the two integer-tagged
operands of `4/2`. -/
theorem c6_witness :
    Value.toRat (.vInt 2) ≠ 0 ∧
    applyBin .div (.vInt 4) (.vInt 2) =
      .ok (.vFloat ((Value.vInt 4).toRat / (Value.vInt 2).toRat)) := by
  refine ⟨by with_unfolding_all decide, ?_⟩
  exact c6_truediv_float_display.1 (.vInt 4) (.vInt 2)
    (by with_unfolding_all decide)

/-- Claim C8: evaluating any input gives the same display as evaluating
its `×`/`÷`-normalized form (the substitution `safe_eval` performs
before parsing), and `6÷2×3` displays `"9"`. -/
theorem c8_unicode_normalization :
    (∀ s : String, evaluate_expression s = evaluate_expression (normalize s)) ∧
    evaluate_expression "6÷2×3" = "9" := by
  refine ⟨?_, by with_unfolding_all rfl⟩
  intro s
  simp only [evaluate_expression, calculate]
  by_cases he : pyStrip s = ""
  · have he2 : pyStrip (normalize s) = "" := by
      rw [pyStrip_normalize, he]
      rfl
    rw [if_pos he, if_pos he2]
  · have he2 : pyStrip (normalize s) ≠ "" := by
      rw [pyStrip_normalize]
      intro h
      exact he ((normalize_eq_empty_iff _).mp h)
    rw [if_neg he, if_neg he2, pyStrip_normalize,
      safe_eval_normalize (pyStrip s)]

/-- Claim C9: an input that is empty or all whitespace displays `"0"`
(the fast path taken before the tokenizer in `calculate`). -/
theorem c9_empty_input :
    (∀ s : String, (∀ c ∈ s.data, isWS c = true) →
      evaluate_expression s = "0") ∧
    evaluate_expression "" = "0" ∧
    evaluate_expression "   " = "0" := by
  refine ⟨?_, by with_unfolding_all rfl, by with_unfolding_all rfl⟩
  intro s h
  simp only [evaluate_expression]
  apply calculate_of_empty
  exact (string_eq_empty_iff _).mpr
    (stripList_all_space s.data fun c hc => isWS_pyIsSpace c (h c hc))

/-- Claim C9, witness: the all-whitespace clause applied at a tab-space
input. -/
theorem c9_witness :
    (∀ c ∈ ("	 " : String).data, isWS c = true) ∧
    evaluate_expression "	 " = "0" :=
  ⟨by decide, c9_empty_input.1 "	 " (by decide)⟩

end PyCalc
